import Mathlib

/-!
Shallow embedding of the dep-version-lens core: the version model, constraint
engine and upgrade resolver from src/utils (src/unnamed/part_000), the
line-oriented requirements parser (src/unnamed/part_001), and the position
lookup of the Pipfile parser (src/parsers/pipfileParser.ts).

JavaScript numbers appearing as version components are modelled as
`Option Int`: `none` stands for NaN, `some v` for the numeric value.  An
indexing result `Option (Option Int)` additionally distinguishes `none` =
undefined (index out of range).  JS `Number(segment)` is modelled for the
segment shapes reachable here: empty string gives 0, optionally signed digit
runs give their value, anything else gives NaN; exponent, hexadecimal and
whitespace forms are not modelled.
-/

/-- Characters of the constraint-operator class [~^>=<!=] used in the
regexes of parseVersionSpec and parseVersion. -/
def isOpChar (c : Char) : Bool :=
  c = '~' || c = '^' || c = '>' || c = '=' || c = '<' || c = '!'

/-- JS line terminators, which `.` in a regex does not match. -/
def isLineTerminator (c : Char) : Bool :=
  c = '\n' || c = '\r' || c = ' ' || c = ' '

/-- Value of a nonempty decimal digit run. -/
def digitsToInt (l : List Char) : Int :=
  l.foldl (fun acc c => 10 * acc + Int.ofNat (c.toNat - '0'.toNat)) 0

/-- JS `Number(s)` on a dot-split version segment: "" gives 0, a digit run
(optionally signed) gives its value, anything else gives NaN (`none`). -/
def jsNumber (l : List Char) : Option Int :=
  if l.isEmpty then some 0
  else if l.all Char.isDigit then some (digitsToInt l)
  else if l.head? = some '-' && !l.tail.isEmpty && l.tail.all Char.isDigit then
    some (-(digitsToInt l.tail))
  else if l.head? = some '+' && !l.tail.isEmpty && l.tail.all Char.isDigit then
    some (digitsToInt l.tail)
  else none

/-- JS `String.prototype.split` with a single-character separator. -/
def splitOnChar (sep : Char) : List Char → List (List Char)
  | [] => [[]]
  | c :: rest =>
    let r := splitOnChar sep rest
    if c = sep then [] :: r
    else
      match r with
      | h :: t => (c :: h) :: t
      | [] => [[c]]

/-- utils.parseVersion: strip the leading operator run (replace of
/^[~^>=<!=]+/ by ""), split on '.', map each segment through Number. -/
def parseVersion (version : String) : List (Option Int) :=
  (splitOnChar '.' (version.toList.dropWhile isOpChar)).map jsNumber

/-- JS `x || 0` on a number-or-NaN: NaN is falsy and becomes 0. -/
def orZero : Option Int → Int
  | some v => v
  | none => 0

/-- Pair up two component lists, padding the shorter with 0 (the JS loop
reads `parts[i] || 0`, so a missing component is 0). -/
def padZip : List Int → List Int → List (Int × Int)
  | [], ys => ys.map (fun y => (0, y))
  | x :: xs, [] => (x, 0) :: padZip xs []
  | x :: xs, y :: ys => (x, y) :: padZip xs ys

/-- The comparison loop of utils.compareVersions: first unequal padded
component decides; all equal gives 0. -/
def cmpPairs : List (Int × Int) → Int
  | [] => 0
  | (a, b) :: rest => if a < b then -1 else if b < a then 1 else cmpPairs rest

/-- utils.compareVersions: parse both, coerce each component with `|| 0`
(NaN and missing components become 0) and compare lexicographically. -/
def compareVersions (v1 v2 : String) : Int :=
  cmpPairs (padZip ((parseVersion v1).map orZero) ((parseVersion v2).map orZero))

/-- JS strict equality `===` on an indexed version component:
undefined === undefined is true, NaN compares unequal to everything,
numbers compare by value. -/
def jsStrictEq : Option (Option Int) → Option (Option Int) → Bool
  | some none, _ => false
  | _, some none => false
  | none, none => true
  | some (some a), some (some b) => a = b
  | _, _ => false

/-- JS `>` on two indexed components: any comparison involving NaN or
undefined is false. -/
def jsGt : Option (Option Int) → Option (Option Int) → Bool
  | some (some a), some (some b) => b < a
  | _, _ => false

/-- JS `>` between an indexed component and a plain number. -/
def jsGtInt : Option (Option Int) → Int → Bool
  | some (some a), n => n < a
  | _, _ => false

/-- JS `parts[i] || 0` read straight off a component list. -/
def idxOrZero (l : List (Option Int)) (i : Nat) : Int :=
  match l.get? i with
  | some (some v) => v
  | _ => 0

/-- Simulation of the JS regex match `^([~^>=<!=]+)?(.+)$` from
utils.parseVersionSpec.  The match fails on the empty string and on any
string containing a line terminator (`.` cannot cross one, and `$` has no
multiline flag).  Otherwise group 1 greedily takes the leading operator
run; when that consumes the whole string the engine backtracks one
character so that `(.+)` can match, leaving the last character as group 2. -/
def versionSpecRegexMatch (s : String) : Option (String × String) :=
  if s.toList.isEmpty || s.toList.any isLineTerminator then none
  else
    let l := s.toList
    let p := l.takeWhile isOpChar
    if p.length = l.length then
      some (String.mk (l.take (l.length - 1)), String.mk (l.drop (l.length - 1)))
    else
      some (String.mk p, String.mk (l.drop p.length))

/-- utils.parseVersionSpec: `match?.[1] || ''` and `match?.[2] || versionSpec`. -/
def parseVersionSpec (versionSpec : String) : String × String :=
  match versionSpecRegexMatch versionSpec with
  | some (op, ver) => (op, if ver.toList.isEmpty then versionSpec else ver)
  | none => ("", versionSpec)

/-- utils.satisfiesConstraint: operator dispatch over the comparison result
and raw parsed components (strict `===` / `>` on possibly-NaN values). -/
def satisfiesConstraint (version operator constraintVersion : String) : Bool :=
  let cmp := compareVersions version constraintVersion
  let vParts := parseVersion version
  let cParts := parseVersion constraintVersion
  if operator = "==" || operator = "" then cmp = 0
  else if operator = ">=" then 0 ≤ cmp
  else if operator = ">" then 0 < cmp
  else if operator = "<=" then cmp ≤ 0
  else if operator = "<" then cmp < 0
  else if operator = "!=" then !(cmp = 0)
  else if operator = "~=" then
    jsStrictEq (vParts.get? 0) (cParts.get? 0) &&
    jsStrictEq (vParts.get? 1) (cParts.get? 1) && 0 ≤ cmp
  else if operator = "^" then
    jsStrictEq (vParts.get? 0) (cParts.get? 0) && 0 ≤ cmp
  else if operator = "~" then
    jsStrictEq (vParts.get? 0) (cParts.get? 0) &&
    jsStrictEq (vParts.get? 1) (cParts.get? 1) && 0 ≤ cmp
  else 0 ≤ cmp

/-- JS test of the filter regex /^\d+\.\d+(\.\d+)?/ in
getVersionUpgradeOptions.  The regex is not anchored at the end, so
`test` succeeds exactly when the string starts with digits, a dot and a
digit; the optional third group cannot affect success. -/
def matchesVersionPrefix (s : String) : Bool :=
  match s.toList with
  | [] => false
  | c :: _ =>
    c.isDigit &&
      (match s.toList.dropWhile Char.isDigit with
       | '.' :: d :: _ => d.isDigit
       | _ => false)

/-- Stable descending insertion: an element goes before the first existing
element it is greater than or equal to under compareVersions.  This
reproduces the (stable, ES2019) JS `sort((a, b) => compareVersions(b, a))`:
both are the unique stable ordering of the total preorder. -/
def insertDescending (x : String) : List String → List String
  | [] => [x]
  | y :: ys => if 0 ≤ compareVersions x y then x :: y :: ys else y :: insertDescending x ys

/-- Stable descending sort by compareVersions. -/
def sortVersionsDescending : List String → List String
  | [] => []
  | x :: xs => insertDescending x (sortVersionsDescending xs)

/-- The candidate pool of getVersionUpgradeOptions: filter by the prefix
regex, then sort descending. -/
def validVersionPool (allVersions : List String) : List String :=
  sortVersionsDescending (allVersions.filter matchesVersionPrefix)

/-- First loop of getVersionUpgradeOptions: first (hence newest) version
that satisfies the constraint and is strictly newer than the reference. -/
def findSatisfies (operator currentVersion : String) (vs : List String) : Option String :=
  vs.find? (fun v =>
    satisfiesConstraint v operator currentVersion &&
    decide (0 < compareVersions v currentVersion))

/-- Exact-pin fallback of getVersionUpgradeOptions: first version sharing
major and minor with the reference whose patch exceeds `currentPatch || 0`. -/
def findPinnedPatchFallback (current : List (Option Int)) (vs : List String) : Option String :=
  vs.find? (fun v =>
    let parsed := parseVersion v
    jsStrictEq (parsed.get? 0) (current.get? 0) &&
    jsStrictEq (parsed.get? 1) (current.get? 1) &&
    jsGtInt (parsed.get? 2) (idxOrZero current 2))

/-- Second loop of getVersionUpgradeOptions: one descending pass skipping
versions ≤ reference, filling each of major/minor/patch at its first hit. -/
def scanUpgrades (currentVersion : String) (current : List (Option Int)) :
    List String → Option String → Option String → Option String →
    Option String × Option String × Option String
  | [], mj, mn, pt => (mj, mn, pt)
  | v :: rest, mj, mn, pt =>
    if compareVersions v currentVersion ≤ 0 then
      scanUpgrades currentVersion current rest mj mn pt
    else
      let parsed := parseVersion v
      let mj' := if mj.isNone && jsGt (parsed.get? 0) (current.get? 0) then some v else mj
      let mn' := if mn.isNone &&
          (jsStrictEq (parsed.get? 0) (current.get? 0) &&
           jsGt (parsed.get? 1) (current.get? 1)) then some v else mn
      let pt' := if pt.isNone &&
          (jsStrictEq (parsed.get? 0) (current.get? 0) &&
           jsStrictEq (parsed.get? 1) (current.get? 1) &&
           jsGtInt (parsed.get? 2) (idxOrZero current 2)) then some v else pt
      scanUpgrades currentVersion current rest mj' mn' pt'

/-- Result record of utils.getVersionUpgradeOptions. -/
structure UpgradeOptions where
  satisfies : Option String
  major : Option String
  minor : Option String
  patch : Option String
deriving Repr, DecidableEq

/-- utils.getVersionUpgradeOptions. -/
def getVersionUpgradeOptions (currentVersionSpec : String) (allVersions : List String) :
    UpgradeOptions :=
  if currentVersionSpec.toList.isEmpty || allVersions.isEmpty then
    ⟨none, none, none, none⟩
  else
    let operator := (parseVersionSpec currentVersionSpec).1
    let currentVersion := (parseVersionSpec currentVersionSpec).2
    let current := parseVersion currentVersion
    let validVersions := validVersionPool allVersions
    let satisfies0 := findSatisfies operator currentVersion validVersions
    let satisfies :=
      if satisfies0.isNone && (operator = "" || operator = "==") then
        findPinnedPatchFallback current validVersions
      else satisfies0
    let scanned := scanUpgrades currentVersion current validVersions none none none
    ⟨satisfies, scanned.1, scanned.2.1, scanned.2.2⟩

/-- The glob-to-regex translation of utils.shouldExcludePackage turns '*'
into `.*` and '?' into `.`; a literal '.' in the pattern stays the regex
metacharacter `.`.  This matcher interprets the translated pattern against
a whole text: '*' consumes any run of non-terminator characters, '?' and
'.' consume one non-terminator character, every other pattern character is
literal (regex metacharacters other than '.' are not modelled; exclusion
patterns are plain globs). -/
def globMatch : List Char → List Char → Bool
  | [], t => t.isEmpty
  | c :: ps, t =>
    if c = '*' then
      (List.range ((t.takeWhile (fun x => !isLineTerminator x)).length + 1)).any
        (fun k => globMatch ps (t.drop k))
    else
      match t with
      | [] => false
      | x :: xs =>
        (if c = '?' || c = '.' then !isLineTerminator x else c = x) && globMatch ps xs

/-- JS `RegExp.prototype.test` is an unanchored search: it succeeds when
some substring (a prefix of some suffix) matches the pattern. -/
def globSearch (p : List Char) (t : List Char) : Bool :=
  t.tails.any (fun suf => suf.inits.any (fun pre => globMatch p pre))

/-- utils.shouldExcludePackage: some configured pattern, translated to a
regex, matches somewhere in the package name. -/
def shouldExcludePackage (packageName : String) (excludePatterns : List String) : Bool :=
  excludePatterns.any (fun pattern => globSearch pattern.toList packageName.toList)

/-- JS whitespace for `trim`, restricted to the ASCII forms. -/
def isJsSpace (c : Char) : Bool :=
  c = ' ' || c = '\t' || c = '\n' || c = '\r' || c = '\x0b' || c = '\x0c'

/-- JS `String.prototype.trim`. -/
def trimChars (l : List Char) : List Char :=
  ((l.dropWhile isJsSpace).reverse.dropWhile isJsSpace).reverse

/-- Name characters of the PEP 508 regex class [a-zA-Z0-9_.-]. -/
def isPEP508NameChar (c : Char) : Bool :=
  c.isAlphanum || c = '_' || c = '.' || c = '-'

/-- Characters of the extras class [a-zA-Z0-9_,.-]. -/
def isExtrasChar (c : Char) : Bool :=
  c.isAlphanum || c = '_' || c = ',' || c = '.' || c = '-'

/-- utils.parsePEP508PackageSpec: match of
`^([a-zA-Z0-9_.-]+(?:\[[a-zA-Z0-9_,.-]*\])?)(.*)$`, returning
(fullName, baseName, versionPart).  The match needs at least one name
character and fails when the input contains a line terminator (`.` cannot
match one); the optional extras group only matches when a full
bracket-closed run follows the name.  versionPart is the remainder cut at
the first ';' or '#' and trimmed. -/
def parsePEP508PackageSpec (packageSpec : String) : Option (String × String × String) :=
  let l := packageSpec.toList
  let nameRun := l.takeWhile isPEP508NameChar
  let afterName := l.dropWhile isPEP508NameChar
  if nameRun.isEmpty || l.any isLineTerminator then none
  else
    let fullRest : List Char × List Char :=
      match afterName with
      | '[' :: bt =>
        match bt.dropWhile isExtrasChar with
        | ']' :: rest2 => (nameRun ++ '[' :: bt.takeWhile isExtrasChar ++ [']'], rest2)
        | _ => (nameRun, afterName)
      | _ => (nameRun, afterName)
    let fullName := String.mk fullRest.1
    let baseName := String.mk (fullRest.1.takeWhile (fun c => c ≠ '['))
    let versionPart :=
      String.mk (trimChars (fullRest.2.takeWhile (fun c => c ≠ ';' && c ≠ '#')))
    some (fullName, baseName, versionPart)

/-- utils.isValidPythonPackageName: full match of [a-zA-Z0-9_-]+ plus the
redundant '/' and '@' exclusions. -/
def isValidPythonPackageName (packageName : String) : Bool :=
  let l := packageName.toList
  !l.isEmpty && l.all (fun c => c.isAlphanum || c = '_' || c = '-') &&
    !l.contains '/' && !l.contains '@'

/-- JS `String.prototype.indexOf`, -1 when absent. -/
def jsIndexOfAux (needle : List Char) : List Char → Int → Int
  | [], i => if needle.isEmpty then i else -1
  | c :: t, i =>
    if needle.isPrefixOf (c :: t) then i else jsIndexOfAux needle t (i + 1)

/-- JS `hay.indexOf(needle)`. -/
def jsIndexOf (hay needle : String) : Int :=
  jsIndexOfAux needle.toList hay.toList 0

/-- The PackageInfo record produced by the parsers.  `line` and the offsets
are kept as integers because the JS sources can produce -1. -/
structure PackageInfo where
  name : String
  basePackageName : Option String
  currentVersion : Option String
  latestVersion : String
  line : Int
  startChar : Int
  endChar : Int
  isOutdated : Bool
  versionConstraint : String
  filePath : String
deriving Repr, DecidableEq

/-- RequirementsParser.parseLine: trim, skip blank/comment/option lines,
parse the PEP 508 spec, validate the base name, split operator and version. -/
def requirementsParseLine (line : String) (lineIndex : Nat) (filePath : String) :
    Option PackageInfo :=
  let cleanLine := String.mk (trimChars line.toList)
  if cleanLine.toList.isEmpty || cleanLine.toList.head? = some '#' ||
      cleanLine.toList.head? = some '-' then none
  else
    match parsePEP508PackageSpec cleanLine with
    | none => none
    | some (fullName, baseName, versionPart) =>
      if !isValidPythonPackageName baseName then none
      else
        let operator := (parseVersionSpec versionPart).1
        let version := (parseVersionSpec versionPart).2
        let startChar := jsIndexOf line fullName
        some
          { name := fullName
            basePackageName := some baseName
            currentVersion := if version.toList.isEmpty then none else some version
            latestVersion := ""
            line := Int.ofNat lineIndex
            startChar := startChar
            endChar := startChar + Int.ofNat fullName.length + Int.ofNat versionPart.length
            isOutdated := false
            versionConstraint := operator
            filePath := filePath }

/-- RequirementsParser.parse: split the document on newlines and parse each
line, keeping the successful ones in order. -/
def requirementsParse (text : String) (filePath : String) : List PackageInfo :=
  ((splitOnChar '\n' text.toList).enum).filterMap
    (fun p => requirementsParseLine (String.mk p.2) p.1 filePath)

/-- JS `Array.prototype.findIndex`: index of the first hit, -1 when none. -/
def jsFindIndexInt (p : α → Bool) : List α → Int
  | [] => -1
  | x :: xs =>
    if p x then 0
    else
      let r := jsFindIndexInt p xs
      if r = -1 then -1 else r + 1

/-- JS `x || 0` on an integer: only 0 is falsy, so -1 passes through. -/
def jsOrZero (x : Int) : Int := if x = 0 then 0 else x

/-- JS `a.includes(b)`: b occurs as a contiguous substring of a. -/
def jsIncludes (hay needle : List Char) : Bool :=
  hay.tails.any (fun suf => needle.isPrefixOf suf)

/-- PipfileParser.findPackageLineIndex (src/parsers/pipfileParser.ts
lines 78-81): `lines.findIndex(l => l.includes(name + " =")) || 0`.
`findIndex` yields -1 when no line matches, and `-1 || 0` is -1 in JS. -/
def pipfileFindPackageLineIndex (content packageName : String) : Int :=
  jsOrZero (jsFindIndexInt
    (fun line => jsIncludes line (packageName.toList ++ [' ', '=']))
    (splitOnChar '\n' content.toList))

/-- JS array indexing with a possibly negative index: negative gives
undefined. -/
def jsListGet (l : List (List Char)) (i : Int) : Option (List Char) :=
  if i < 0 then none else l.get? i.toNat

/-- PipfileParser.parsePackageDep for a plain string version value: name
validity check, operator/version split, line lookup, offsets.  The TOML
parsing that produces the (name, version) pairs is external to this
function. -/
def pipfileParsePackageDep (content name versionStr filePath : String) :
    Option PackageInfo :=
  if !isValidPythonPackageName name then none
  else
    let operator := (parseVersionSpec versionStr).1
    let cleanVersion := (parseVersionSpec versionStr).2
    let lineIndex := pipfileFindPackageLineIndex content name
    let line := (jsListGet (splitOnChar '\n' content.toList) lineIndex).getD []
    let startChar := jsIndexOf (String.mk line) name
    some
      { name := name
        basePackageName := none
        currentVersion := if cleanVersion.toList.isEmpty then none else some cleanVersion
        latestVersion := ""
        line := lineIndex
        startChar := max 0 startChar
        endChar := startChar + Int.ofNat name.length + Int.ofNat versionStr.length
        isOutdated := false
        versionConstraint := operator
        filePath := filePath }

/-- Modelled from the spec: "Position tracking: each parser locates the
owning line ... and reports Math.max(0, foundIndex) — if no anchor is
found the declaration still is emitted at line 0".  This is the intended
clamped variant of PipfileParser.findPackageLineIndex. -/
def specPipfileLineIndex (content packageName : String) : Int :=
  max 0 (jsFindIndexInt
    (fun line => jsIncludes line (packageName.toList ++ [' ', '=']))
    (splitOnChar '\n' content.toList))

/-- The spec's stated candidate filter, read as a full-string pattern:
the whole string is digit+.digit+ or digit+.digit+.digit+. -/
def isPlainDottedVersion (s : String) : Bool :=
  match splitOnChar '.' s.toList with
  | [a, b] => !a.isEmpty && a.all Char.isDigit && !b.isEmpty && b.all Char.isDigit
  | [a, b, c] =>
    !a.isEmpty && a.all Char.isDigit && !b.isEmpty && b.all Char.isDigit &&
      !c.isEmpty && c.all Char.isDigit
  | _ => false

/-- The claim's comparator semantics for NaN: any comparison involving a
NaN component is false, so such a component pair decides nothing and the
loop moves on; absent trailing components are still 0. -/
def cmpPairsNanUnordered : List (Option Int × Option Int) → Int
  | [] => 0
  | (some a, some b) :: rest =>
    if a < b then -1 else if b < a then 1 else cmpPairsNanUnordered rest
  | (_, _) :: rest => cmpPairsNanUnordered rest

/-- Zero-pad two raw component lists, keeping NaN. -/
def padZipOpt : List (Option Int) → List (Option Int) → List (Option Int × Option Int)
  | [], ys => ys.map (fun y => (some 0, y))
  | x :: xs, [] => (x, some 0) :: padZipOpt xs []
  | x :: xs, y :: ys => (x, y) :: padZipOpt xs ys

/-- The claim's version of compareVersions (NaN unordered and skipped). -/
def compareVersionsNanUnordered (v1 v2 : String) : Int :=
  cmpPairsNanUnordered (padZipOpt (parseVersion v1) (parseVersion v2))


lemma cmpPairs_padZip_self : ∀ l : List Int, cmpPairs (padZip l l) = 0
  | [] => rfl
  | x :: xs => by
    simp [padZip, cmpPairs, cmpPairs_padZip_self xs]

lemma compareVersions_self (s : String) : compareVersions s s = 0 :=
  cmpPairs_padZip_self _


lemma idxOrZero_two (x y z : Option Int) (t : List (Option Int)) :
    idxOrZero (x :: y :: z :: t) 2 = orZero z := by
  cases z <;> rfl

lemma cmpPairs_cons_self (x : Int) (rest : List (Int × Int)) :
    cmpPairs ((x, x) :: rest) = cmpPairs rest := by
  rw [show cmpPairs ((x, x) :: rest) =
    (if x < x then -1 else if x < x then 1 else cmpPairs rest) from rfl]
  simp

lemma cmpPairs_cons_gt (x y : Int) (rest : List (Int × Int)) (h : y < x) :
    cmpPairs ((x, y) :: rest) = 1 := by
  rw [show cmpPairs ((x, y) :: rest) =
    (if x < y then -1 else if y < x then 1 else cmpPairs rest) from rfl]
  rw [if_neg (by omega), if_pos h]

/-- If the candidate shares major and minor with the reference under JS
strict equality on raw parsed components, and its third component is a
number exceeding the reference's `patch || 0`, then the zero-coerced
lexicographic comparison comes out strictly greater. -/
lemma fallback_cmp_pos (p c : List (Option Int))
    (h0 : jsStrictEq (p.get? 0) (c.get? 0) = true)
    (h1 : jsStrictEq (p.get? 1) (c.get? 1) = true)
    (h2 : jsGtInt (p.get? 2) (idxOrZero c 2) = true) :
    cmpPairs (padZip (p.map orZero) (c.map orZero)) = 1 := by
  rcases p with _ | ⟨p0, p⟩
  · simp [jsGtInt, List.get?] at h2
  rcases p with _ | ⟨p1, p⟩
  · simp [jsGtInt, List.get?] at h2
  rcases p with _ | ⟨p2, pr⟩
  · simp [jsGtInt, List.get?] at h2
  rcases p2 with _ | vp
  · simp [jsGtInt, List.get?] at h2
  rcases p0 with _ | a
  · simp [jsStrictEq, List.get?] at h0
  rcases p1 with _ | b
  · simp [jsStrictEq, List.get?] at h1
  rcases c with _ | ⟨c0, c⟩
  · simp [jsStrictEq, List.get?] at h0
  rcases c0 with _ | a'
  · simp [jsStrictEq, List.get?] at h0
  rcases c with _ | ⟨c1, ct⟩
  · simp [jsStrictEq, List.get?] at h1
  rcases c1 with _ | b'
  · simp [jsStrictEq, List.get?] at h1
  obtain rfl : a = a' := by simpa [jsStrictEq, List.get?] using h0
  obtain rfl : b = b' := by simpa [jsStrictEq, List.get?] using h1
  have h2' : idxOrZero (some a :: some b :: ct) 2 < vp := by
    simpa [jsGtInt, List.get?, idxOrZero] using h2
  rcases ct with _ | ⟨c2, ct'⟩
  · have hz : idxOrZero [some a, some b] 2 = 0 := rfl
    rw [hz] at h2'
    have hp : padZip (List.map orZero (some a :: some b :: some vp :: pr))
        (List.map orZero [some a, some b]) =
        (a, a) :: (b, b) :: (vp, 0) :: padZip (List.map orZero pr) [] := rfl
    rw [hp, cmpPairs_cons_self, cmpPairs_cons_self, cmpPairs_cons_gt _ _ _ h2']
  · rw [idxOrZero_two] at h2'
    have hp : padZip (List.map orZero (some a :: some b :: some vp :: pr))
        (List.map orZero (some a :: some b :: c2 :: ct')) =
        (a, a) :: (b, b) :: (vp, orZero c2) ::
          padZip (List.map orZero pr) (List.map orZero ct') := rfl
    rw [hp, cmpPairs_cons_self, cmpPairs_cons_self, cmpPairs_cons_gt _ _ _ h2']

/-- Any value the major/minor/patch scan puts into a slot was either there
already or is strictly newer than the reference (the loop skips everything
with comparison ≤ 0). -/
lemma scanUpgrades_inv (curV : String) (cur : List (Option Int)) :
    ∀ (vs : List String) (mj mn pt : Option String) (v : String),
      ((scanUpgrades curV cur vs mj mn pt).1 = some v →
        mj = some v ∨ 0 < compareVersions v curV) ∧
      ((scanUpgrades curV cur vs mj mn pt).2.1 = some v →
        mn = some v ∨ 0 < compareVersions v curV) ∧
      ((scanUpgrades curV cur vs mj mn pt).2.2 = some v →
        pt = some v ∨ 0 < compareVersions v curV) := by
  intro vs
  induction vs with
  | nil =>
    intro mj mn pt v
    refine ⟨fun h => Or.inl ?_, fun h => Or.inl ?_, fun h => Or.inl ?_⟩ <;>
      simpa [scanUpgrades] using h
  | cons w rest ih =>
    intro mj mn pt v
    by_cases hle : compareVersions w curV ≤ 0
    · simpa [scanUpgrades, hle] using ih mj mn pt v
    · have hgt : 0 < compareVersions w curV := by omega
      have hstep : scanUpgrades curV cur (w :: rest) mj mn pt =
          scanUpgrades curV cur rest
            (if mj.isNone && jsGt ((parseVersion w).get? 0) (cur.get? 0) then some w else mj)
            (if mn.isNone &&
              (jsStrictEq ((parseVersion w).get? 0) (cur.get? 0) &&
               jsGt ((parseVersion w).get? 1) (cur.get? 1)) then some w else mn)
            (if pt.isNone &&
              (jsStrictEq ((parseVersion w).get? 0) (cur.get? 0) &&
               jsStrictEq ((parseVersion w).get? 1) (cur.get? 1) &&
               jsGtInt ((parseVersion w).get? 2) (idxOrZero cur 2)) then some w else pt) := by
        simp [scanUpgrades, hle]
      rw [hstep]
      refine ⟨fun h => ?_, fun h => ?_, fun h => ?_⟩
      · rcases (ih _ _ _ v).1 h with h' | h'
        · split at h'
          · cases h'; exact Or.inr hgt
          · exact Or.inl h'
        · exact Or.inr h'
      · rcases (ih _ _ _ v).2.1 h with h' | h'
        · split at h'
          · cases h'; exact Or.inr hgt
          · exact Or.inl h'
        · exact Or.inr h'
      · rcases (ih _ _ _ v).2.2 h with h' | h'
        · split at h'
          · cases h'; exact Or.inr hgt
          · exact Or.inl h'
        · exact Or.inr h'

/-- C1: for every constraint spec and pool, every non-null candidate in the
satisfies (via either the constraint scan or the exact-pin patch fallback),
major, minor and patch slots of getVersionUpgradeOptions is strictly
greater than the reference version under compareVersions, and in
particular never equals the declared current version text. -/
theorem getVersionUpgradeOptions_strictly_newer (spec : String) (pool : List String)
    (v : String)
    (h : (getVersionUpgradeOptions spec pool).satisfies = some v ∨
         (getVersionUpgradeOptions spec pool).major = some v ∨
         (getVersionUpgradeOptions spec pool).minor = some v ∨
         (getVersionUpgradeOptions spec pool).patch = some v) :
    0 < compareVersions v (parseVersionSpec spec).2 ∧ v ≠ (parseVersionSpec spec).2 := by
  have main : 0 < compareVersions v (parseVersionSpec spec).2 := by
    by_cases hg : (spec.toList.isEmpty || pool.isEmpty) = true
    · rw [show getVersionUpgradeOptions spec pool = ⟨none, none, none, none⟩ by
        unfold getVersionUpgradeOptions; rw [if_pos hg]] at h
      simp at h
    · unfold getVersionUpgradeOptions at h
      rw [if_neg hg] at h
      simp only [] at h
      rcases h with h | h | h | h
      · split at h
        · have hp := List.find?_some h
          simp only [Bool.and_eq_true] at hp
          have hcv : compareVersions v (parseVersionSpec spec).2 = 1 :=
            fallback_cmp_pos _ _ hp.1.1 hp.1.2 hp.2
          omega
        · have hp := List.find?_some h
          simp only [Bool.and_eq_true, decide_eq_true_eq] at hp
          exact hp.2
      · rcases (scanUpgrades_inv _ _ _ _ _ _ v).1 h with h' | h'
        · cases h'
        · exact h'
      · rcases (scanUpgrades_inv _ _ _ _ _ _ v).2.1 h with h' | h'
        · cases h'
        · exact h'
      · rcases (scanUpgrades_inv _ _ _ _ _ _ v).2.2 h with h' | h'
        · cases h'
        · exact h'
  refine ⟨main, fun hv => ?_⟩
  rw [hv, compareVersions_self] at main
  omega

/-- Witness for the invariant: the major slot of the exact-pin scenario is
"2.0.0", which is strictly newer than the reference "1.2.0". -/
theorem getVersionUpgradeOptions_strictly_newer_witness :
    0 < compareVersions "2.0.0" (parseVersionSpec "==1.2.0").2 ∧
      "2.0.0" ≠ (parseVersionSpec "==1.2.0").2 :=
  getVersionUpgradeOptions_strictly_newer "==1.2.0" ["1.2.0", "1.2.3", "1.3.0", "2.0.0"]
    "2.0.0" (Or.inr (Or.inl (by decide)))

/-- C2: on the exact-pin scenario the constraint scan finds nothing (no
version both equals the pin and is newer), the fallback surfaces the
patch-level "1.2.3" as satisfies, and the other slots are "2.0.0",
"1.3.0" and "1.2.3". -/
theorem getVersionUpgradeOptions_exact_pin_scenario :
    getVersionUpgradeOptions "==1.2.0" ["1.2.0", "1.2.3", "1.3.0", "2.0.0"] =
      ⟨some "1.2.3", some "2.0.0", some "1.3.0", some "1.2.3"⟩ ∧
    findSatisfies "==" "1.2.0"
      (validVersionPool ["1.2.0", "1.2.3", "1.3.0", "2.0.0"]) = none ∧
    findPinnedPatchFallback (parseVersion "1.2.0")
      (validVersionPool ["1.2.0", "1.2.3", "1.3.0", "2.0.0"]) = some "1.2.3" := by
  decide

/-- C7 (code evaluation at the failing input): for a Pipfile whose
dependency line has no space before '=', findIndex misses, `-1 || 0` stays
-1, and the parser emits the declaration with line index -1; the clamped
variant the spec describes gives 0. -/
theorem pipfileParsePackageDep_negative_line :
    (pipfileParsePackageDep "[packages]\nrequests=\"==2.28.0\"" "requests" "==2.28.0"
        "Pipfile").map (fun p => p.line) = some (-1) ∧
    pipfileFindPackageLineIndex "[packages]\nrequests=\"==2.28.0\"" "requests" = -1 ∧
    specPipfileLineIndex "[packages]\nrequests=\"==2.28.0\"" "requests" = 0 := by
  decide

/-- C8 counterexample: the claim says a NaN component pair never decides
the comparison, which on "x.0" against "5.0" (per the claim's
NaN-unordered comparator) would give 0; compareVersions actually decides
at the first components and returns -1. -/
theorem compareVersions_nan_counterexample :
    compareVersions "x.0" "5.0" = -1 ∧
      compareVersionsNanUnordered "x.0" "5.0" = 0 := by
  decide

/-- C8 amended: a non-numeric segment does parse to NaN, but
compareVersions coerces NaN components to 0 through `|| 0`, so they behave
exactly like explicit zeros (and can decide the result): "x.0" compares
equal to "0.0" and strictly below "5.0". -/
theorem compareVersions_nan_is_zero :
    parseVersion "x.0" = [none, some 0] ∧
    compareVersions "x.0" "0.0" = 0 ∧
    compareVersions "x.0" "5.0" = -1 ∧
    (∀ l1 l2 : List (Option Int),
      cmpPairs (padZip ((l1.map fun x => some (orZero x)).map orZero)
        ((l2.map fun x => some (orZero x)).map orZero)) =
      cmpPairs (padZip (l1.map orZero) (l2.map orZero))) := by
  refine ⟨by decide, by decide, by decide, fun l1 l2 => ?_⟩
  rw [List.map_map, List.map_map]
  have hcomp : (orZero ∘ fun x : Option Int => some (orZero x)) = orZero := by
    funext x; cases x <;> rfl
  rw [hcomp]

/-- C9: the three-line requirements document yields exactly three
declarations led by (requests, 2.28.0, ==); comment and blank lines yield
no declarations. -/
theorem requirementsParse_scenarios :
    (requirementsParse "requests==2.28.0\nnumpy>=1.21.0\ndjango~=4.0.0"
        "requirements.txt").length = 3 ∧
    ((requirementsParse "requests==2.28.0\nnumpy>=1.21.0\ndjango~=4.0.0"
        "requirements.txt").head?.map
      (fun p => (p.name, p.currentVersion, p.versionConstraint)) =
        some ("requests", some "2.28.0", "==")) ∧
    (requirementsParse "# comment\n\nrequests==2.28.0\n# another"
        "requirements.txt").map (fun p => p.name) = ["requests"] := by
  decide

/-- C10: an empty constraint spec or an empty pool short-circuits
getVersionUpgradeOptions to four null slots. -/
theorem getVersionUpgradeOptions_empty_inputs :
    (∀ pool : List String, getVersionUpgradeOptions "" pool = ⟨none, none, none, none⟩) ∧
    (∀ spec : String, getVersionUpgradeOptions spec [] = ⟨none, none, none, none⟩) := by
  constructor
  · intro pool
    unfold getVersionUpgradeOptions
    rw [if_pos (by rfl)]
  · intro spec
    unfold getVersionUpgradeOptions
    rw [if_pos (by simp)]

/-- C4: the caret operator checks same major plus comparison ≥ 0, tilde and
compatible-release check same major and minor plus comparison ≥ 0 (with JS
strict equality on the raw parsed components), and any operator outside
the recognized set behaves exactly like ">=". -/
theorem satisfiesConstraint_ranges_and_default :
    (∀ v r : String, satisfiesConstraint v "^" r =
      (jsStrictEq ((parseVersion v).get? 0) ((parseVersion r).get? 0) &&
        decide (0 ≤ compareVersions v r))) ∧
    (∀ v r : String, satisfiesConstraint v "~" r =
      (jsStrictEq ((parseVersion v).get? 0) ((parseVersion r).get? 0) &&
        jsStrictEq ((parseVersion v).get? 1) ((parseVersion r).get? 1) &&
        decide (0 ≤ compareVersions v r))) ∧
    (∀ v r : String, satisfiesConstraint v "~=" r =
      (jsStrictEq ((parseVersion v).get? 0) ((parseVersion r).get? 0) &&
        jsStrictEq ((parseVersion v).get? 1) ((parseVersion r).get? 1) &&
        decide (0 ≤ compareVersions v r))) ∧
    (∀ op : String,
      op ∉ ["", "==", ">=", ">", "<=", "<", "!=", "~=", "^", "~"] →
      ∀ v r : String, satisfiesConstraint v op r = satisfiesConstraint v ">=" r) := by
  refine ⟨fun v r => rfl, fun v r => rfl, fun v r => rfl, ?_⟩
  intro op hop v r
  simp only [List.mem_cons, List.not_mem_nil, or_false, not_or] at hop
  obtain ⟨h1, h2, h3, h4, h5, h6, h7, h8, h9, h10⟩ := hop
  simp [satisfiesConstraint, h1, h2, h3, h4, h5, h6, h7, h8, h9, h10]

/-- Witness: the unrecognized operator "@" behaves like ">=". -/
theorem satisfiesConstraint_default_witness :
    satisfiesConstraint "2.0.0" "@" "1.0.0" = satisfiesConstraint "2.0.0" ">=" "1.0.0" :=
  satisfiesConstraint_ranges_and_default.2.2.2 "@" (by decide) "2.0.0" "1.0.0"

/-- C6 counterexample: the exclusion test is not a full-string match — the
pattern "test-*" excludes the name "xtest-foo" even though it does not
match the whole name. -/
theorem shouldExcludePackage_counterexample :
    shouldExcludePackage "xtest-foo" ["test-*"] = true ∧
    (["test-*"].any fun p => globMatch p.toList "xtest-foo".toList) = false := by
  decide

/-- C6 amended: a name is excluded iff some pattern, with '*' as any run
and '?' as any single character, matches some contiguous substring of the
name (JS RegExp.test is unanchored); the spec's two glob examples still
hold. -/
theorem shouldExcludePackage_substring_semantics :
    (∀ (name : String) (patterns : List String),
      shouldExcludePackage name patterns = true ↔
        ∃ p ∈ patterns, ∃ mid : List Char,
          mid <:+: name.toList ∧ globMatch p.toList mid = true) ∧
    shouldExcludePackage "test-foo" ["test-*"] = true ∧
    shouldExcludePackage "footest" ["test-*"] = false := by
  refine ⟨?_, by decide, by decide⟩
  intro name patterns
  unfold shouldExcludePackage globSearch
  simp only [List.any_eq_true, List.mem_tails, List.mem_inits]
  constructor
  · rintro ⟨p, hp, suf, hsuf, pre, hpre, hm⟩
    exact ⟨p, hp, pre, List.infix_iff_prefix_suffix.mpr ⟨suf, hpre, hsuf⟩, hm⟩
  · rintro ⟨p, hp, mid, hmid, hm⟩
    obtain ⟨t, ht1, ht2⟩ := List.infix_iff_prefix_suffix.mp hmid
    exact ⟨p, hp, t, ht2, mid, ht1, hm⟩

/-- C3 counterexample: the filter regex is unanchored at the end, so the
pre-release string "1.3.0-beta" survives the pool filter (the spec-stated
full pattern rejects it) and can even be returned as a candidate. -/
theorem versionPool_filter_counterexample :
    validVersionPool ["1.3.0-beta"] = ["1.3.0-beta"] ∧
    isPlainDottedVersion "1.3.0-beta" = false ∧
    (getVersionUpgradeOptions "^1.2.0" ["1.3.0-beta"]).satisfies = some "1.3.0-beta" := by
  decide

lemma mem_insertDescending (x v : String) (l : List String) :
    v ∈ insertDescending x l ↔ v = x ∨ v ∈ l := by
  induction l with
  | nil => simp [insertDescending]
  | cons y ys ih =>
    simp only [insertDescending]
    split
    · simp [List.mem_cons]
    · simp only [List.mem_cons, ih]
      tauto

lemma mem_sortVersionsDescending (v : String) (l : List String) :
    v ∈ sortVersionsDescending l ↔ v ∈ l := by
  induction l with
  | nil => simp [sortVersionsDescending]
  | cons x xs ih => simp [sortVersionsDescending, mem_insertDescending, ih]

lemma dropWhile_digits_dot (d1 t : List Char)
    (h : ∀ c ∈ d1, Char.isDigit c = true) :
    (d1 ++ '.' :: t).dropWhile Char.isDigit = '.' :: t := by
  induction d1 with
  | nil =>
    rw [List.nil_append, List.dropWhile_cons, if_neg (by decide)]
  | cons c cs ih =>
    rw [List.cons_append, List.dropWhile_cons,
      if_pos (h c (List.mem_cons_self c cs))]
    exact ih fun a ha => h a (List.mem_cons_of_mem _ ha)

/-- C3 amended: the pool of getVersionUpgradeOptions consists exactly of
the input strings whose PREFIX is digit run, dot, digit run (the filter
regex has no end anchor), so pre-release tails such as "-beta" survive. -/
theorem versionPool_prefix_filter :
    (∀ (pool : List String) (v : String),
      v ∈ validVersionPool pool ↔ v ∈ pool ∧ matchesVersionPrefix v = true) ∧
    (∀ s : String, matchesVersionPrefix s = true ↔
      ∃ d1 d2 rest : List Char, s.toList = d1 ++ '.' :: (d2 ++ rest) ∧
        d1 ≠ [] ∧ d2 ≠ [] ∧ (∀ c ∈ d1, c.isDigit = true) ∧
        (∀ c ∈ d2, c.isDigit = true)) := by
  constructor
  · intro pool v
    unfold validVersionPool
    rw [mem_sortVersionsDescending, List.mem_filter]
  · intro s
    constructor
    · intro h
      unfold matchesVersionPrefix at h
      split at h
      · exact absurd h (by simp)
      · rename_i c cs hs
        simp only [Bool.and_eq_true] at h
        obtain ⟨hc, hm⟩ := h
        split at hm
        · rename_i d rest hd
          refine ⟨s.toList.takeWhile Char.isDigit, [d], rest, ?_, ?_, by simp, ?_, ?_⟩
          · conv_lhs => rw [← List.takeWhile_append_dropWhile
              (p := Char.isDigit) (l := s.toList)]
            rw [hd]
            simp
          · rw [hs, List.takeWhile_cons, if_pos hc]
            simp
          · intro a ha
            exact List.mem_takeWhile_imp ha
          · intro a ha
            simp only [List.mem_singleton] at ha
            subst ha
            exact hm
        · exact absurd hm (by simp)
    · rintro ⟨d1, d2, rest, hs, h1, h2, hd1, hd2⟩
      rcases d1 with _ | ⟨c, cs⟩
      · exact absurd rfl h1
      rcases d2 with _ | ⟨d, ds⟩
      · exact absurd rfl h2
      unfold matchesVersionPrefix
      rw [hs]
      have hdrop : ((c :: cs) ++ '.' :: (d :: ds ++ rest)).dropWhile Char.isDigit =
          '.' :: (d :: ds ++ rest) :=
        dropWhile_digits_dot _ _ hd1
      rw [hdrop]
      simp [hd1 c (List.mem_cons_self c cs), hd2 d (List.mem_cons_self d ds)]

/-- C5 counterexample: on an input made entirely of operator characters the
regex backtracks, so parseVersionSpec "==" is ("=", "=") rather than the
claimed ("==", ""). -/
theorem parseVersionSpec_counterexample :
    parseVersionSpec "==" = ("=", "=") ∧ parseVersionSpec "==" ≠ ("==", "") := by
  decide

lemma takeWhile_eq_self_of_all {p : Char → Bool} :
    ∀ l : List Char, l.all p = true → l.takeWhile p = l := by
  intro l h
  induction l with
  | nil => rfl
  | cons c cs ih =>
    simp only [List.all_cons, Bool.and_eq_true] at h
    rw [List.takeWhile_cons, if_pos h.1, ih h.2]

lemma all_of_takeWhile_length {p : Char → Bool} :
    ∀ l : List Char, (l.takeWhile p).length = l.length → l.all p = true := by
  intro l h
  induction l with
  | nil => rfl
  | cons c cs ih =>
    rw [List.takeWhile_cons] at h
    by_cases hc : p c = true
    · rw [if_pos hc] at h
      simp only [List.length_cons, Nat.succ.injEq] at h
      simp [List.all_cons, hc, ih h]
    · rw [if_neg hc] at h
      simp at h
lemma length_takeWhile_le_self {p : Char → Bool} :
    ∀ l : List Char, (l.takeWhile p).length ≤ l.length := by
  intro l
  induction l with
  | nil => simp
  | cons c cs ih =>
    rw [List.takeWhile_cons]
    split
    · simpa using ih
    · simp

lemma drop_length_takeWhile {p : Char → Bool} (l : List Char) :
    l.drop (l.takeWhile p).length = l.dropWhile p := by
  have h := List.drop_left (l.takeWhile p) (l.dropWhile p)
  rw [List.takeWhile_append_dropWhile] at h
  exact h

/-- C5 amended: for a nonempty input without line terminators the operator
is the longest leading run of characters from the set (~, ^, >, =, <, !)
and the version text is the remaining suffix — except when the entire
input consists of operator characters, in which case the regex backtracks
and the operator is everything but the last character, with the last
character as the version text.  (An empty input, or one containing a line
terminator, fails the regex and yields operator "" with the whole input as
version text.) -/
theorem parseVersionSpec_operator_run (s : String) (h1 : s.toList ≠ [])
    (h2 : ∀ c ∈ s.toList, isLineTerminator c = false) :
    (s.toList.all isOpChar = false →
      parseVersionSpec s =
        (String.mk (s.toList.takeWhile isOpChar),
         String.mk (s.toList.dropWhile isOpChar))) ∧
    (s.toList.all isOpChar = true →
      parseVersionSpec s =
        (String.mk (s.toList.take (s.toList.length - 1)),
         String.mk (s.toList.drop (s.toList.length - 1)))) := by
  have hguard : ¬((s.toList.isEmpty || s.toList.any isLineTerminator) = true) := by
    simp only [Bool.or_eq_true, List.isEmpty_iff, List.any_eq_true]
    rintro (h | ⟨c, hc, hlt⟩)
    · exact h1 h
    · rw [h2 c hc] at hlt
      cases hlt
  constructor
  · intro hall
    have hlen : ¬((s.toList.takeWhile isOpChar).length = s.toList.length) := by
      intro hl
      rw [all_of_takeWhile_length _ hl] at hall
      cases hall
    have hne : (String.mk (s.toList.drop (s.toList.takeWhile isOpChar).length)).toList ≠ [] := by
      show s.toList.drop (s.toList.takeWhile isOpChar).length ≠ []
      intro hnil
      rw [List.drop_eq_nil_iff_le] at hnil
      have hle := length_takeWhile_le_self (p := isOpChar) s.toList
      omega
    unfold parseVersionSpec versionSpecRegexMatch
    rw [if_neg hguard, if_neg hlen]
    simp only []
    rw [if_neg (by simpa [List.isEmpty_iff] using hne)]
    rw [drop_length_takeWhile]
  · intro hall
    have htw : s.toList.takeWhile isOpChar = s.toList :=
      takeWhile_eq_self_of_all _ hall
    have hlen : (s.toList.takeWhile isOpChar).length = s.toList.length := by
      rw [htw]
    have hpos : 1 ≤ s.toList.length := List.length_pos.mpr h1
    have hne : (String.mk (s.toList.drop (s.toList.length - 1))).toList ≠ [] := by
      show s.toList.drop (s.toList.length - 1) ≠ []
      intro hnil
      rw [List.drop_eq_nil_iff_le] at hnil
      omega
    unfold parseVersionSpec versionSpecRegexMatch
    rw [if_neg hguard, if_pos hlen]
    simp only []
    rw [if_neg (by simpa [List.isEmpty_iff] using hne)]

/-- Witness: on "~=4.0.0" the operator is the leading run "~=" and the
version text is the remainder "4.0.0". -/
theorem parseVersionSpec_operator_run_witness :
    parseVersionSpec "~=4.0.0" =
      (String.mk ("~=4.0.0".toList.takeWhile isOpChar),
       String.mk ("~=4.0.0".toList.dropWhile isOpChar)) :=
  (parseVersionSpec_operator_run "~=4.0.0" (by decide) (by decide)).1 (by decide)
